import Mathlib

/-!
# Verification of the sailors-superstitions ledger engine

Shallow embedding of `src/lib.rs`: the data model (`Transaction`,
`TransactionKind`, `TransactionStatus`, `Client`) and the single entry point
`handle`, which applies one event against a client store and a transaction
store.  The Rust code is generic over an amount type `T : Default + AddAssign
+ SubAssign + PartialOrd + Copy`; we instantiate it with `Int`, an exact
additive comparable type as the spec requires (`main.rs` uses
`rust_decimal::Decimal`).  The two `HashMap`s are embedded as functions
`Nat → Option _` (keys `u16`/`u32` carry no arithmetic, only equality).
`handle` mutates the stores in place and returns `Result<(), Cow<str>>`; the
embedding passes the state explicitly and returns the rejection (if any)
paired with the new state.
-/

namespace SailorLedger

/-- The amount type.  `main.rs` instantiates the generic engine with
`rust_decimal::Decimal`; the engine only needs exact `+=`, `-=` and `<`,
which `Int` supplies. -/
abbrev Amount := Int

/-- `enum TransactionStatus` of `lib.rs` (the Rust variant `Chargeback` is
spelled `chargeback` here). -/
inductive TxStatus where
  | started
  | disputed
  | resolved
  | chargeback
deriving DecidableEq, Repr

/-- `enum TransactionKind<T>` of `lib.rs`: only `Deposit` and `Withdrawal`
carry an amount. -/
inductive TransactionKind where
  | deposit (amount : Amount)
  | withdrawal (amount : Amount)
  | dispute
  | resolve
  | chargeback
deriving DecidableEq, Repr

/-- `struct Transaction<T>` of `lib.rs`: an event (and, once stored, a record)
with a kind, a client id (`u16`), a transaction id (`u32`) and a private
lifecycle status. -/
structure Transaction where
  kind : TransactionKind
  client : Nat
  tx : Nat
  status : TxStatus
deriving DecidableEq, Repr

/-- `Transaction::new`: the only public constructor; the status always starts
as `Started`. -/
def Transaction.new (kind : TransactionKind) (client tx : Nat) : Transaction :=
  { kind := kind, client := client, tx := tx, status := .started }

/-- `struct Client<T>` of `lib.rs`. -/
structure Client where
  available : Amount
  held : Amount
  locked : Bool
deriving DecidableEq, Repr

/-- `impl Default for Client<T>`: zero balances, unlocked. -/
def Client.default : Client :=
  { available := 0, held := 0, locked := false }

/-- One rejection constructor per `Err(...)` site of `handle` in `lib.rs`
(the Rust code returns these as strings):
`clientLocked` = "client is locked";
`duplicateTransaction tx` = "found duplicate transaction {tx}";
`notEnoughFunds` = "not enough funds to withdraw";
`referencedTransactionNotFound tx` = "could not find referenced transaction";
`differentClient` = "transactions are not from the same client";
`alreadyInDispute tx` = "transaction already in dispute";
`alreadyResolved tx` = "transaction already resolved";
`notInDispute tx` = "transaction is not in dispute";
`notInDisputeOrResolved tx` = "transaction is not in dispute/resolved";
`noAmount tx` = "transaction does not have an amount". -/
inductive Rejection where
  | clientLocked
  | duplicateTransaction (tx : Nat)
  | notEnoughFunds
  | referencedTransactionNotFound (tx : Nat)
  | differentClient
  | alreadyInDispute (tx : Nat)
  | alreadyResolved (tx : Nat)
  | notInDispute (tx : Nat)
  | notInDisputeOrResolved (tx : Nat)
  | noAmount (tx : Nat)
deriving DecidableEq, Repr

/-- Point update of a keyed store; embeds `HashMap::insert` (and an
`entry(..).and_modify(..)` or mutation through an `entry(..).or_default()`
reference, where the updated value is supplied explicitly). -/
def setAt {α : Type} (m : Nat → Option α) (k : Nat) (v : α) : Nat → Option α :=
  fun j => if j = k then some v else m j

/-- The two stores that `handle` receives by mutable reference:
`client_store : HashMap<u16, Client<T>>` and
`tx_store : HashMap<u32, Transaction<T>>`. -/
structure EngineState where
  clients : Nat → Option Client
  txs : Nat → Option Transaction

/-- Both stores empty, as at the start of `main`. -/
def emptyState : EngineState :=
  { clients := fun _ => none, txs := fun _ => none }

/-- `pub fn handle<T>` of `lib.rs`, embedded line by line.  The Rust function
mutates the two stores through `&mut` and returns `Result<(), Cow<str>>`;
here the rejection (`none` = `Ok(())`) is returned with the new state.
`clients0` is the store right after `client_store.entry(tx.client).or_default()`,
which inserts a default client before any check runs. -/
def handle (t : Transaction) (s : EngineState) : Option Rejection × EngineState :=
  let client := (s.clients t.client).getD Client.default
  let clients0 := setAt s.clients t.client client
  if client.locked then
    (some .clientLocked, { s with clients := clients0 })
  else
    match t.kind with
    | .deposit amount =>
      if (s.txs t.tx).isSome then
        (some (.duplicateTransaction t.tx), { s with clients := clients0 })
      else
        (none,
          { clients := setAt clients0 t.client
              { client with available := client.available + amount },
            txs := setAt s.txs t.tx t })
    | .withdrawal amount =>
      if (s.txs t.tx).isSome then
        (some (.duplicateTransaction t.tx), { s with clients := clients0 })
      else if client.available < amount then
        (some .notEnoughFunds, { s with clients := clients0 })
      else
        (none,
          { clients := setAt clients0 t.client
              { client with available := client.available - amount },
            txs := setAt s.txs t.tx t })
    | _ =>
      match s.txs t.tx with
      | none => (some (.referencedTransactionNotFound t.tx), { s with clients := clients0 })
      | some refTx =>
        if t.client ≠ refTx.client then
          (some .differentClient, { s with clients := clients0 })
        else if t.kind = .dispute then
          if refTx.status = .disputed then
            (some (.alreadyInDispute t.tx), { s with clients := clients0 })
          else if refTx.status = .resolved ∨ refTx.status = .chargeback then
            (some (.alreadyResolved t.tx), { s with clients := clients0 })
          else
            match refTx.kind with
            | .deposit amount | .withdrawal amount =>
              (none,
                { clients := setAt clients0 t.client
                    { client with
                        available := client.available - amount,
                        held := client.held + amount },
                  txs := setAt s.txs t.tx { refTx with status := .disputed } })
            | _ => (some (.noAmount t.tx), { s with clients := clients0 })
        else if t.kind = .resolve then
          if ¬ refTx.status = .disputed then
            (some (.notInDispute t.tx), { s with clients := clients0 })
          else
            match refTx.kind with
            | .deposit amount | .withdrawal amount =>
              (none,
                { clients := setAt clients0 t.client
                    { client with
                        available := client.available + amount,
                        held := client.held - amount },
                  txs := setAt s.txs t.tx { refTx with status := .resolved } })
            | _ => (some (.noAmount t.tx), { s with clients := clients0 })
        else
          if ¬ refTx.status = .disputed ∧ ¬ refTx.status = .resolved then
            (some (.notInDisputeOrResolved t.tx), { s with clients := clients0 })
          else
            match refTx.kind with
            | .deposit amount | .withdrawal amount =>
              (none,
                { clients := setAt clients0 t.client
                    { client with
                        held := client.held - amount,
                        locked := true },
                  txs := setAt s.txs t.tx { refTx with status := .chargeback } })
            | _ => (some (.noAmount t.tx), { s with clients := clients0 })

/-- The ingestion loop of `main.rs`: apply the events one at a time, in order,
ignoring rejections. -/
def run (evs : List Transaction) (s : EngineState) : EngineState :=
  match evs with
  | [] => s
  | e :: rest => run rest (handle e s).2

/-- The ingestion loop again, also recording each event with its result
(`none` = accepted). -/
def runTrace (evs : List Transaction) (s : EngineState) :
    EngineState × List (Transaction × Option Rejection) :=
  match evs with
  | [] => (s, [])
  | e :: rest =>
    let step := handle e s
    let tail := runTrace rest step.2
    (tail.1, (e, step.1) :: tail.2)

/-- Available balance of a client id, `0` when the account does not exist
(accounts are created with `Client::default`). -/
def availOf (s : EngineState) (c : Nat) : Amount :=
  ((s.clients c).getD Client.default).available

/-- Held balance of a client id, `0` when the account does not exist. -/
def heldOf (s : EngineState) (c : Nat) : Amount :=
  ((s.clients c).getD Client.default).held

/-- Locked flag of a client id, `false` when the account does not exist. -/
def lockedOf (s : EngineState) (c : Nat) : Bool :=
  ((s.clients c).getD Client.default).locked

/-- The derived quantity `total = available + held` of `main.rs` (computed at
report time, never stored). -/
def totalOf (s : EngineState) (c : Nat) : Amount :=
  availOf s c + heldOf s c

/-- Amount a single traced event contributes to client `c`'s accepted
deposits: its amount when it is a deposit by `c` that was accepted
(`none` = `Ok`), `0` otherwise. -/
def depositContrib (c : Nat) (t : Transaction) (r : Option Rejection) : Amount :=
  match t.kind, r with
  | .deposit a, none => if c = t.client then a else 0
  | _, _ => 0

/-- Amount a single traced event contributes to client `c`'s accepted
withdrawals. -/
def withdrawalContrib (c : Nat) (t : Transaction) (r : Option Rejection) : Amount :=
  match t.kind, r with
  | .withdrawal a, none => if c = t.client then a else 0
  | _, _ => 0

/-- Sum of the amounts of client `c`'s accepted deposits in a trace. -/
def acceptedDepositSum (c : Nat) : List (Transaction × Option Rejection) → Amount
  | [] => 0
  | p :: rest => depositContrib c p.1 p.2 + acceptedDepositSum c rest

/-- Sum of the amounts of client `c`'s accepted withdrawals in a trace. -/
def acceptedWithdrawalSum (c : Nat) : List (Transaction × Option Rejection) → Amount
  | [] => 0
  | p :: rest => withdrawalContrib c p.1 p.2 + acceptedWithdrawalSum c rest

/-- The money-moving kinds: the only ones that are ever stored. -/
def TransactionKind.isMoney : TransactionKind → Bool
  | .deposit _ => true
  | .withdrawal _ => true
  | _ => false

/-- The status transitions the spec permits, as a one-step table:
`Started → Disputed`, `Disputed → Resolved`, `Disputed → ChargedBack`,
`Resolved → ChargedBack`. -/
def statusEdge : TxStatus → TxStatus → Bool
  | .started, .disputed => true
  | .disputed, .resolved => true
  | .disputed, .chargeback => true
  | .resolved, .chargeback => true
  | _, _ => false

/-- One `handle` call either keeps a stored status or moves it along one
edge of the table. -/
def statusStep (a b : TxStatus) : Bool :=
  a = b || statusEdge a b

/-- Reflexive-transitive closure of the transition table. -/
def statusReach (a b : TxStatus) : Bool :=
  a = b || statusEdge a b ||
    (a = .started && (b = .resolved || b = .chargeback))

/-- A dispute/resolve/chargeback event whose referenced status makes the
attempted transition fall outside the table: a dispute of a transaction not
`Started`, a resolve of a transaction not `Disputed`, a chargeback of a
transaction neither `Disputed` nor `Resolved`. -/
def badAttempt : TransactionKind → TxStatus → Bool
  | .dispute, st => ! (st = .started)
  | .resolve, st => ! (st = .disputed)
  | .chargeback, st => ! (st = .disputed || st = .resolved)
  | _, _ => false

theorem setAt_self {α : Type} (m : Nat → Option α) (k : Nat) (v : α) :
    setAt m k v k = some v := by
  simp [setAt]

theorem setAt_other {α : Type} (m : Nat → Option α) (k : Nat) (v : α) (j : Nat)
    (h : j ≠ k) : setAt m k v j = m j := by
  simp [setAt, h]

theorem setAt_setAt_same {α : Type} (m : Nat → Option α) (k : Nat) (u v : α) :
    setAt (setAt m k u) k v = setAt m k v := by
  funext j
  by_cases h : j = k <;> simp [setAt, h]

/-- `handle` never touches the account entry of any client other than the
event's own. -/
theorem handle_clients_other (e : Transaction) (s : EngineState) (c : Nat)
    (h : c ≠ e.client) : (handle e s).2.clients c = s.clients c := by
  simp only [handle]
  repeat' split <;> try simp [setAt, h]

/-- `handle` never touches a transaction entry other than the event's own. -/
theorem handle_txs_other (e : Transaction) (s : EngineState) (k : Nat)
    (h : k ≠ e.tx) : (handle e s).2.txs k = s.txs k := by
  simp only [handle]
  repeat' split <;> try simp [setAt, h]

/-- Every `handle` call either accepts the event or leaves the state exactly
as it was, except that `client_store.entry(tx.client).or_default()` has run:
the event's client entry holds its old value when it existed and
`Client::default()` otherwise. -/
theorem handle_cases (e : Transaction) (s : EngineState) :
    (handle e s).1 = none ∨
      ((handle e s).2.txs = s.txs ∧
        (handle e s).2.clients =
          setAt s.clients e.client ((s.clients e.client).getD Client.default)) := by
  simp only [handle]
  repeat' split
  all_goals first
    | exact Or.inl rfl
    | exact Or.inr ⟨rfl, rfl⟩


/-- Inversion of an accepted deposit: the transaction id was fresh, the
account unlocked; `available` grows by the amount and the event is stored. -/
theorem deposit_ok_inv (e : Transaction) (s : EngineState) (a : Amount)
    (hkind : e.kind = .deposit a) (h : (handle e s).1 = none) :
    s.txs e.tx = none ∧ lockedOf s e.client = false ∧
    (handle e s).2.clients = setAt s.clients e.client
      { available := availOf s e.client + a,
        held := heldOf s e.client,
        locked := false } ∧
    (handle e s).2.txs = setAt s.txs e.tx e := by
  by_cases hl : ((s.clients e.client).getD Client.default).locked = true
  · simp [handle, hl] at h
  · rw [Bool.not_eq_true] at hl
    cases hdup : s.txs e.tx with
    | some rt => simp [handle, hkind, hl, hdup] at h
    | none =>
      refine ⟨rfl, by simpa [lockedOf] using hl, ?_, ?_⟩
      · simp [handle, hkind, hl, hdup, setAt_setAt_same, availOf, heldOf]
      · simp [handle, hkind, hl, hdup]


/-- Inversion of an accepted withdrawal: fresh id, unlocked, sufficient
funds; `available` shrinks by the amount and the event is stored. -/
theorem withdrawal_ok_inv (e : Transaction) (s : EngineState) (a : Amount)
    (hkind : e.kind = .withdrawal a) (h : (handle e s).1 = none) :
    s.txs e.tx = none ∧ lockedOf s e.client = false ∧
    ¬ availOf s e.client < a ∧
    (handle e s).2.clients = setAt s.clients e.client
      { available := availOf s e.client - a,
        held := heldOf s e.client,
        locked := false } ∧
    (handle e s).2.txs = setAt s.txs e.tx e := by
  by_cases hl : ((s.clients e.client).getD Client.default).locked = true
  · simp [handle, hl] at h
  · rw [Bool.not_eq_true] at hl
    cases hdup : s.txs e.tx with
    | some rt => simp [handle, hkind, hl, hdup] at h
    | none =>
      by_cases hf : ((s.clients e.client).getD Client.default).available < a
      · simp [handle, hkind, hl, hdup, hf] at h
      · refine ⟨rfl, by simpa [lockedOf] using hl, by simpa [availOf] using hf, ?_, ?_⟩
        · simp [handle, hkind, hl, hdup, hf, setAt_setAt_same, availOf, heldOf]
        · simp [handle, hkind, hl, hdup, hf]

/-- Inversion of an accepted dispute: the referenced transaction exists,
belongs to the event's client, was `Started` and carries an amount; the
amount moves from `available` to `held` and the status becomes `Disputed`. -/
theorem dispute_ok_inv (e : Transaction) (s : EngineState)
    (hkind : e.kind = .dispute) (h : (handle e s).1 = none) :
    ∃ rt a, s.txs e.tx = some rt ∧ rt.client = e.client ∧ rt.status = .started ∧
      (rt.kind = .deposit a ∨ rt.kind = .withdrawal a) ∧
      lockedOf s e.client = false ∧
      (handle e s).2.clients = setAt s.clients e.client
        { available := availOf s e.client - a,
          held := heldOf s e.client + a,
          locked := false } ∧
      (handle e s).2.txs = setAt s.txs e.tx { rt with status := .disputed } := by
  by_cases hl : ((s.clients e.client).getD Client.default).locked = true
  · simp [handle, hl] at h
  · rw [Bool.not_eq_true] at hl
    cases hdup : s.txs e.tx with
    | none => simp [handle, hkind, hl, hdup] at h
    | some rt =>
      by_cases hc : rt.client = e.client
      case neg =>
        have hc2 : ¬ e.client = rt.client := fun hh => hc hh.symm
        simp [handle, hkind, hl, hdup, hc2] at h
      case pos =>
      cases hst : rt.status with
      | disputed => simp [handle, hkind, hl, hdup, hc, hst] at h
      | resolved => simp [handle, hkind, hl, hdup, hc, hst] at h
      | chargeback => simp [handle, hkind, hl, hdup, hc, hst] at h
      | started =>
        cases hrk : rt.kind with
        | dispute => simp [handle, hkind, hl, hdup, hc, hst, hrk] at h
        | resolve => simp [handle, hkind, hl, hdup, hc, hst, hrk] at h
        | chargeback => simp [handle, hkind, hl, hdup, hc, hst, hrk] at h
        | deposit a =>
          refine ⟨rt, a, rfl, hc, hst, Or.inl hrk,
            by simpa [lockedOf] using hl, ?_, ?_⟩
          · simp [handle, hkind, hl, hdup, hc, hst, hrk, setAt_setAt_same, availOf, heldOf]
          · simp [handle, hkind, hl, hdup, hc, hst, hrk]
        | withdrawal a =>
          refine ⟨rt, a, rfl, hc, hst, Or.inr hrk,
            by simpa [lockedOf] using hl, ?_, ?_⟩
          · simp [handle, hkind, hl, hdup, hc, hst, hrk, setAt_setAt_same, availOf, heldOf]
          · simp [handle, hkind, hl, hdup, hc, hst, hrk]

/-- Inversion of an accepted resolve: the referenced transaction exists,
belongs to the event's client, was `Disputed` and carries an amount; the
amount moves back from `held` to `available` and the status becomes
`Resolved`. -/
theorem resolve_ok_inv (e : Transaction) (s : EngineState)
    (hkind : e.kind = .resolve) (h : (handle e s).1 = none) :
    ∃ rt a, s.txs e.tx = some rt ∧ rt.client = e.client ∧ rt.status = .disputed ∧
      (rt.kind = .deposit a ∨ rt.kind = .withdrawal a) ∧
      lockedOf s e.client = false ∧
      (handle e s).2.clients = setAt s.clients e.client
        { available := availOf s e.client + a,
          held := heldOf s e.client - a,
          locked := false } ∧
      (handle e s).2.txs = setAt s.txs e.tx { rt with status := .resolved } := by
  by_cases hl : ((s.clients e.client).getD Client.default).locked = true
  · simp [handle, hl] at h
  · rw [Bool.not_eq_true] at hl
    cases hdup : s.txs e.tx with
    | none => simp [handle, hkind, hl, hdup] at h
    | some rt =>
      by_cases hc : rt.client = e.client
      case neg =>
        have hc2 : ¬ e.client = rt.client := fun hh => hc hh.symm
        simp [handle, hkind, hl, hdup, hc2] at h
      case pos =>
      cases hst : rt.status with
      | started => simp [handle, hkind, hl, hdup, hc, hst] at h
      | resolved => simp [handle, hkind, hl, hdup, hc, hst] at h
      | chargeback => simp [handle, hkind, hl, hdup, hc, hst] at h
      | disputed =>
        cases hrk : rt.kind with
        | dispute => simp [handle, hkind, hl, hdup, hc, hst, hrk] at h
        | resolve => simp [handle, hkind, hl, hdup, hc, hst, hrk] at h
        | chargeback => simp [handle, hkind, hl, hdup, hc, hst, hrk] at h
        | deposit a =>
          refine ⟨rt, a, rfl, hc, hst, Or.inl hrk,
            by simpa [lockedOf] using hl, ?_, ?_⟩
          · simp [handle, hkind, hl, hdup, hc, hst, hrk, setAt_setAt_same, availOf, heldOf]
          · simp [handle, hkind, hl, hdup, hc, hst, hrk]
        | withdrawal a =>
          refine ⟨rt, a, rfl, hc, hst, Or.inr hrk,
            by simpa [lockedOf] using hl, ?_, ?_⟩
          · simp [handle, hkind, hl, hdup, hc, hst, hrk, setAt_setAt_same, availOf, heldOf]
          · simp [handle, hkind, hl, hdup, hc, hst, hrk]

/-- Inversion of an accepted chargeback: the referenced transaction exists,
belongs to the event's client, was `Disputed` or `Resolved` and carries an
amount; `held` shrinks by the amount, the account is locked, and the status
becomes `ChargedBack`. -/
theorem chargeback_ok_inv (e : Transaction) (s : EngineState)
    (hkind : e.kind = .chargeback) (h : (handle e s).1 = none) :
    ∃ rt a, s.txs e.tx = some rt ∧ rt.client = e.client ∧
      (rt.status = .disputed ∨ rt.status = .resolved) ∧
      (rt.kind = .deposit a ∨ rt.kind = .withdrawal a) ∧
      lockedOf s e.client = false ∧
      (handle e s).2.clients = setAt s.clients e.client
        { available := availOf s e.client,
          held := heldOf s e.client - a,
          locked := true } ∧
      (handle e s).2.txs = setAt s.txs e.tx { rt with status := .chargeback } := by
  by_cases hl : ((s.clients e.client).getD Client.default).locked = true
  · simp [handle, hl] at h
  · rw [Bool.not_eq_true] at hl
    cases hdup : s.txs e.tx with
    | none => simp [handle, hkind, hl, hdup] at h
    | some rt =>
      by_cases hc : rt.client = e.client
      case neg =>
        have hc2 : ¬ e.client = rt.client := fun hh => hc hh.symm
        simp [handle, hkind, hl, hdup, hc2] at h
      case pos =>
      cases hst : rt.status with
      | started => simp [handle, hkind, hl, hdup, hc, hst] at h
      | chargeback => simp [handle, hkind, hl, hdup, hc, hst] at h
      | disputed =>
        cases hrk : rt.kind with
        | dispute => simp [handle, hkind, hl, hdup, hc, hst, hrk] at h
        | resolve => simp [handle, hkind, hl, hdup, hc, hst, hrk] at h
        | chargeback => simp [handle, hkind, hl, hdup, hc, hst, hrk] at h
        | deposit a =>
          refine ⟨rt, a, rfl, hc, Or.inl hst, Or.inl hrk,
            by simpa [lockedOf] using hl, ?_, ?_⟩
          · simp [handle, hkind, hl, hdup, hc, hst, hrk, setAt_setAt_same, availOf, heldOf]
          · simp [handle, hkind, hl, hdup, hc, hst, hrk]
        | withdrawal a =>
          refine ⟨rt, a, rfl, hc, Or.inl hst, Or.inr hrk,
            by simpa [lockedOf] using hl, ?_, ?_⟩
          · simp [handle, hkind, hl, hdup, hc, hst, hrk, setAt_setAt_same, availOf, heldOf]
          · simp [handle, hkind, hl, hdup, hc, hst, hrk]
      | resolved =>
        cases hrk : rt.kind with
        | dispute => simp [handle, hkind, hl, hdup, hc, hst, hrk] at h
        | resolve => simp [handle, hkind, hl, hdup, hc, hst, hrk] at h
        | chargeback => simp [handle, hkind, hl, hdup, hc, hst, hrk] at h
        | deposit a =>
          refine ⟨rt, a, rfl, hc, Or.inr hst, Or.inl hrk,
            by simpa [lockedOf] using hl, ?_, ?_⟩
          · simp [handle, hkind, hl, hdup, hc, hst, hrk, setAt_setAt_same, availOf, heldOf]
          · simp [handle, hkind, hl, hdup, hc, hst, hrk]
        | withdrawal a =>
          refine ⟨rt, a, rfl, hc, Or.inr hst, Or.inr hrk,
            by simpa [lockedOf] using hl, ?_, ?_⟩
          · simp [handle, hkind, hl, hdup, hc, hst, hrk, setAt_setAt_same, availOf, heldOf]
          · simp [handle, hkind, hl, hdup, hc, hst, hrk]


/-- A locked account rejects every event addressed to it and is never
modified by any event at all. -/
theorem handle_locked_client (e : Transaction) (s : EngineState) (c : Nat)
    (cl : Client) (h1 : s.clients c = some cl) (h2 : cl.locked = true) :
    (e.client = c → (handle e s).1 = some .clientLocked) ∧
    (handle e s).2.clients c = some cl := by
  constructor
  · intro he
    subst he
    simp [handle, h1, h2]
  · by_cases he : c = e.client
    · subst he
      simp [handle, h1, h2, setAt_self]
    · rw [handle_clients_other e s c he, h1]

/-- What one `handle` call can do to a transaction-store entry: leave it
alone, insert the (accepted, money-moving) event at a fresh id, or move the
status of the referenced entry along one edge of the transition table. -/
theorem handle_txs_cases (e : Transaction) (s : EngineState) (k : Nat) :
    (handle e s).2.txs k = s.txs k ∨
    (k = e.tx ∧ s.txs k = none ∧ (handle e s).2.txs k = some e ∧
      (handle e s).1 = none) ∨
    (k = e.tx ∧ ∃ rt st, s.txs k = some rt ∧
      (handle e s).2.txs k = some { rt with status := st } ∧
      statusEdge rt.status st = true ∧ (handle e s).1 = none) := by
  by_cases hk : k = e.tx
  case neg => exact Or.inl (handle_txs_other e s k hk)
  case pos =>
  subst hk
  by_cases hl : ((s.clients e.client).getD Client.default).locked = true
  · left; simp [handle, hl]
  · rw [Bool.not_eq_true] at hl
    cases hkind : e.kind with
    | deposit a =>
      cases hdup : s.txs e.tx with
      | some rt => left; simp [handle, hkind, hl, hdup]
      | none =>
        right; left
        refine ⟨rfl, rfl, ?_, ?_⟩ <;> simp [handle, hkind, hl, hdup, setAt_self]
    | withdrawal a =>
      cases hdup : s.txs e.tx with
      | some rt => left; simp [handle, hkind, hl, hdup]
      | none =>
        by_cases hf : ((s.clients e.client).getD Client.default).available < a
        · left; simp [handle, hkind, hl, hdup, hf]
        · right; left
          refine ⟨rfl, rfl, ?_, ?_⟩ <;>
            simp [handle, hkind, hl, hdup, hf, setAt_self]
    | dispute =>
      cases hdup : s.txs e.tx with
      | none => left; simp [handle, hkind, hl, hdup]
      | some rt =>
        by_cases hc : rt.client = e.client
        case neg =>
          have hc2 : ¬ e.client = rt.client := fun hh => hc hh.symm
          left; simp [handle, hkind, hl, hdup, hc2]
        case pos =>
        cases hst : rt.status with
        | disputed => left; simp [handle, hkind, hl, hdup, hc, hst]
        | resolved => left; simp [handle, hkind, hl, hdup, hc, hst]
        | chargeback => left; simp [handle, hkind, hl, hdup, hc, hst]
        | started =>
          cases hrk : rt.kind with
          | dispute => left; simp [handle, hkind, hl, hdup, hc, hst, hrk]
          | resolve => left; simp [handle, hkind, hl, hdup, hc, hst, hrk]
          | chargeback => left; simp [handle, hkind, hl, hdup, hc, hst, hrk]
          | deposit a =>
            right; right
            refine ⟨rfl, rt, .disputed, rfl, ?_, ?_, ?_⟩
            · simp [handle, hkind, hl, hdup, hc, hst, hrk, setAt_self]
            · simp [hst, statusEdge]
            · simp [handle, hkind, hl, hdup, hc, hst, hrk]
          | withdrawal a =>
            right; right
            refine ⟨rfl, rt, .disputed, rfl, ?_, ?_, ?_⟩
            · simp [handle, hkind, hl, hdup, hc, hst, hrk, setAt_self]
            · simp [hst, statusEdge]
            · simp [handle, hkind, hl, hdup, hc, hst, hrk]
    | resolve =>
      cases hdup : s.txs e.tx with
      | none => left; simp [handle, hkind, hl, hdup]
      | some rt =>
        by_cases hc : rt.client = e.client
        case neg =>
          have hc2 : ¬ e.client = rt.client := fun hh => hc hh.symm
          left; simp [handle, hkind, hl, hdup, hc2]
        case pos =>
        cases hst : rt.status with
        | started => left; simp [handle, hkind, hl, hdup, hc, hst]
        | resolved => left; simp [handle, hkind, hl, hdup, hc, hst]
        | chargeback => left; simp [handle, hkind, hl, hdup, hc, hst]
        | disputed =>
          cases hrk : rt.kind with
          | dispute => left; simp [handle, hkind, hl, hdup, hc, hst, hrk]
          | resolve => left; simp [handle, hkind, hl, hdup, hc, hst, hrk]
          | chargeback => left; simp [handle, hkind, hl, hdup, hc, hst, hrk]
          | deposit a =>
            right; right
            refine ⟨rfl, rt, .resolved, rfl, ?_, ?_, ?_⟩
            · simp [handle, hkind, hl, hdup, hc, hst, hrk, setAt_self]
            · simp [hst, statusEdge]
            · simp [handle, hkind, hl, hdup, hc, hst, hrk]
          | withdrawal a =>
            right; right
            refine ⟨rfl, rt, .resolved, rfl, ?_, ?_, ?_⟩
            · simp [handle, hkind, hl, hdup, hc, hst, hrk, setAt_self]
            · simp [hst, statusEdge]
            · simp [handle, hkind, hl, hdup, hc, hst, hrk]
    | chargeback =>
      cases hdup : s.txs e.tx with
      | none => left; simp [handle, hkind, hl, hdup]
      | some rt =>
        by_cases hc : rt.client = e.client
        case neg =>
          have hc2 : ¬ e.client = rt.client := fun hh => hc hh.symm
          left; simp [handle, hkind, hl, hdup, hc2]
        case pos =>
        cases hst : rt.status with
        | started => left; simp [handle, hkind, hl, hdup, hc, hst]
        | chargeback => left; simp [handle, hkind, hl, hdup, hc, hst]
        | disputed =>
          cases hrk : rt.kind with
          | dispute => left; simp [handle, hkind, hl, hdup, hc, hst, hrk]
          | resolve => left; simp [handle, hkind, hl, hdup, hc, hst, hrk]
          | chargeback => left; simp [handle, hkind, hl, hdup, hc, hst, hrk]
          | deposit a =>
            right; right
            refine ⟨rfl, rt, .chargeback, rfl, ?_, ?_, ?_⟩
            · simp [handle, hkind, hl, hdup, hc, hst, hrk, setAt_self]
            · simp [hst, statusEdge]
            · simp [handle, hkind, hl, hdup, hc, hst, hrk]
          | withdrawal a =>
            right; right
            refine ⟨rfl, rt, .chargeback, rfl, ?_, ?_, ?_⟩
            · simp [handle, hkind, hl, hdup, hc, hst, hrk, setAt_self]
            · simp [hst, statusEdge]
            · simp [handle, hkind, hl, hdup, hc, hst, hrk]
        | resolved =>
          cases hrk : rt.kind with
          | dispute => left; simp [handle, hkind, hl, hdup, hc, hst, hrk]
          | resolve => left; simp [handle, hkind, hl, hdup, hc, hst, hrk]
          | chargeback => left; simp [handle, hkind, hl, hdup, hc, hst, hrk]
          | deposit a =>
            right; right
            refine ⟨rfl, rt, .chargeback, rfl, ?_, ?_, ?_⟩
            · simp [handle, hkind, hl, hdup, hc, hst, hrk, setAt_self]
            · simp [hst, statusEdge]
            · simp [handle, hkind, hl, hdup, hc, hst, hrk]
          | withdrawal a =>
            right; right
            refine ⟨rfl, rt, .chargeback, rfl, ?_, ?_, ?_⟩
            · simp [handle, hkind, hl, hdup, hc, hst, hrk, setAt_self]
            · simp [hst, statusEdge]
            · simp [handle, hkind, hl, hdup, hc, hst, hrk]

/-- An event referencing a stored transaction whose status does not permit
the attempted transition is always rejected. -/
theorem handle_bad_attempt (e : Transaction) (s : EngineState) (rt : Transaction)
    (h1 : s.txs e.tx = some rt) (h2 : badAttempt e.kind rt.status = true) :
    (handle e s).1 ≠ none := by
  by_cases hl : ((s.clients e.client).getD Client.default).locked = true
  · simp [handle, hl]
  · rw [Bool.not_eq_true] at hl
    cases hkind : e.kind with
    | deposit a => rw [hkind] at h2; simp [badAttempt] at h2
    | withdrawal a => rw [hkind] at h2; simp [badAttempt] at h2
    | dispute =>
      rw [hkind] at h2
      by_cases hc : rt.client = e.client
      case neg =>
        have hc2 : ¬ e.client = rt.client := fun hh => hc hh.symm
        simp [handle, hkind, hl, h1, hc2]
      case pos =>
        cases hst : rt.status with
        | started => rw [hst] at h2; simp [badAttempt] at h2
        | disputed => simp [handle, hkind, hl, h1, hc, hst]
        | resolved => simp [handle, hkind, hl, h1, hc, hst]
        | chargeback => simp [handle, hkind, hl, h1, hc, hst]
    | resolve =>
      rw [hkind] at h2
      by_cases hc : rt.client = e.client
      case neg =>
        have hc2 : ¬ e.client = rt.client := fun hh => hc hh.symm
        simp [handle, hkind, hl, h1, hc2]
      case pos =>
        cases hst : rt.status with
        | disputed => rw [hst] at h2; simp [badAttempt] at h2
        | started => simp [handle, hkind, hl, h1, hc, hst]
        | resolved => simp [handle, hkind, hl, h1, hc, hst]
        | chargeback => simp [handle, hkind, hl, h1, hc, hst]
    | chargeback =>
      rw [hkind] at h2
      by_cases hc : rt.client = e.client
      case neg =>
        have hc2 : ¬ e.client = rt.client := fun hh => hc hh.symm
        simp [handle, hkind, hl, h1, hc2]
      case pos =>
        cases hst : rt.status with
        | disputed => rw [hst] at h2; simp [badAttempt] at h2
        | resolved => rw [hst] at h2; simp [badAttempt] at h2
        | started => simp [handle, hkind, hl, h1, hc, hst]
        | chargeback => simp [handle, hkind, hl, h1, hc, hst]

theorem statusReach_refl (a : TxStatus) : statusReach a a = true := by
  cases a <;> decide

theorem statusEdge_reach (a b c : TxStatus) (h1 : statusEdge a b = true)
    (h2 : statusReach b c = true) : statusReach a c = true := by
  cases a <;> cases b <;> cases c <;> revert h1 h2 <;> decide

/-- Along any run, a stored transaction keeps its kind, client and id, and
its status moves only along the reflexive-transitive closure of the
transition table. -/
theorem run_statusReach (evs : List Transaction) (s : EngineState) (k : Nat)
    (rt : Transaction) (h : s.txs k = some rt) :
    ∃ rt2, (run evs s).txs k = some rt2 ∧ rt2.kind = rt.kind ∧
      rt2.client = rt.client ∧ rt2.tx = rt.tx ∧
      statusReach rt.status rt2.status = true := by
  induction evs generalizing s rt with
  | nil => exact ⟨rt, h, rfl, rfl, rfl, statusReach_refl rt.status⟩
  | cons e rest ih =>
    rcases handle_txs_cases e s k with hcase | ⟨hk, hnone, hins, hok⟩ |
      ⟨hk, rt2, st, hsome, hmod, hedge, hok⟩
    · exact ih (handle e s).2 rt (hcase.trans h)
    · rw [h] at hnone; cases hnone
    · rw [h] at hsome
      injection hsome with hrt
      subst hrt
      obtain ⟨rt3, hh, e1, e2, e3, hr⟩ := ih (handle e s).2 _ hmod
      exact ⟨rt3, hh, e1, e2, e3, statusEdge_reach rt.status st rt3.status hedge hr⟩


theorem getD_setAt_or_default (m : Nat → Option Client) (k c : Nat) :
    ((setAt m k ((m k).getD Client.default)) c).getD Client.default =
      (m c).getD Client.default := by
  by_cases h : c = k <;> simp [setAt, h]

/-- One deposit or withdrawal, applied to a state whose accounts all have
zero held balance and are unlocked, keeps that invariant and changes each
`available` by exactly the event's accepted contribution. -/
theorem money_step (e : Transaction) (s : EngineState)
    (hk : e.kind.isMoney = true)
    (hheld : ∀ c, heldOf s c = 0) (hlock : ∀ c, lockedOf s c = false) :
    (∀ c, heldOf (handle e s).2 c = 0) ∧
    (∀ c, lockedOf (handle e s).2 c = false) ∧
    (∀ c, availOf (handle e s).2 c =
      availOf s c + (depositContrib c e (handle e s).1 -
        withdrawalContrib c e (handle e s).1)) := by
  have key : ∀ c, ∃ b : Amount,
      ((handle e s).2.clients c).getD Client.default =
        { available := availOf s c + b, held := heldOf s c, locked := false } ∧
      b = depositContrib c e (handle e s).1 - withdrawalContrib c e (handle e s).1 ∧
      lockedOf s c = false := by
    intro c
    by_cases hok : (handle e s).1 = none
    case pos =>
      cases hkind : e.kind with
      | dispute => rw [hkind] at hk; simp [TransactionKind.isMoney] at hk
      | resolve => rw [hkind] at hk; simp [TransactionKind.isMoney] at hk
      | chargeback => rw [hkind] at hk; simp [TransactionKind.isMoney] at hk
      | deposit a =>
        obtain ⟨-, -, hcl, -⟩ := deposit_ok_inv e s a hkind hok
        by_cases hc : c = e.client
        · subst hc
          refine ⟨a, ?_, ?_, hlock e.client⟩
          · rw [hcl]; simp [setAt]
          · simp [depositContrib, withdrawalContrib, hok, hkind]
        · have hc2 : ¬ c = e.client := hc
          refine ⟨0, ?_, ?_, hlock c⟩
          · rw [hcl, setAt_other _ _ _ _ hc2]
            have h2 := hlock c
            simp only [lockedOf] at h2
            rw [add_zero, ← h2]
            rfl
          · simp [depositContrib, withdrawalContrib, hok, hkind, hc2]
      | withdrawal a =>
        obtain ⟨-, -, -, hcl, -⟩ := withdrawal_ok_inv e s a hkind hok
        by_cases hc : c = e.client
        · subst hc
          refine ⟨-a, ?_, ?_, hlock e.client⟩
          · rw [hcl]; simp [setAt, sub_eq_add_neg]
          · simp [depositContrib, withdrawalContrib, hok, hkind]
        · have hc2 : ¬ c = e.client := hc
          refine ⟨0, ?_, ?_, hlock c⟩
          · rw [hcl, setAt_other _ _ _ _ hc2]
            have h2 := hlock c
            simp only [lockedOf] at h2
            rw [add_zero, ← h2]
            rfl
          · simp [depositContrib, withdrawalContrib, hok, hkind, hc2]
    case neg =>
      rcases handle_cases e s with h | ⟨htxs, hcl⟩
      · exact absurd h hok
      cases hr : (handle e s).1 with
      | none => exact absurd hr hok
      | some r =>
        refine ⟨0, ?_, ?_, hlock c⟩
        · rw [hcl, getD_setAt_or_default]
          have h2 := hlock c
          simp only [lockedOf] at h2
          rw [add_zero, ← h2]
          rfl
        · simp [depositContrib, withdrawalContrib, hr]
  refine ⟨?_, ?_, ?_⟩ <;> intro c <;> obtain ⟨b, hb, hb2, -⟩ := key c
  · simp only [heldOf, hb]; exact hheld c
  · simp only [lockedOf, hb]
  · simp only [availOf, hb, hb2]


/-- Over a run of only deposits and withdrawals (from any state whose
accounts are all unlocked with zero held), every account keeps zero held
balance and its available balance changes by accepted deposits minus
accepted withdrawals. -/
theorem runTrace_money (evs : List Transaction) (s : EngineState)
    (hk : ∀ e ∈ evs, e.kind.isMoney = true)
    (hheld : ∀ c, heldOf s c = 0) (hlock : ∀ c, lockedOf s c = false) :
    (∀ c, heldOf (runTrace evs s).1 c = 0) ∧
    (∀ c, availOf (runTrace evs s).1 c =
      availOf s c + (acceptedDepositSum c (runTrace evs s).2 -
        acceptedWithdrawalSum c (runTrace evs s).2)) := by
  induction evs generalizing s with
  | nil =>
    exact ⟨hheld, fun c => by
      simp [runTrace, acceptedDepositSum, acceptedWithdrawalSum]⟩
  | cons e rest ih =>
    obtain ⟨hheld2, hlock2, havail⟩ := money_step e s (hk e (by simp)) hheld hlock
    obtain ⟨ih1, ih2⟩ := ih (handle e s).2 (fun x hx => hk x (by simp [hx])) hheld2 hlock2
    constructor
    · intro c
      simpa [runTrace] using ih1 c
    · intro c
      have hrec := ih2 c
      simp only [runTrace, acceptedDepositSum, acceptedWithdrawalSum]
      rw [hrec, havail c]
      ring


/-- Lookups at the event's own client id always find an account after the
call (the `or_default` insertion runs before any validation). -/
theorem handle_clients_self_isSome (e : Transaction) (s : EngineState) :
    ((handle e s).2.clients e.client).isSome = true := by
  simp only [handle]
  repeat' split <;> try simp [setAt]

/-- Claim C1 (amended): if `handle` rejects an event, the transaction store
is unchanged and so is every account entry except possibly the event's own
client id, which is inserted with `Client::default()` when absent (and kept
at its old value when present).  The original claim — both stores entirely
unchanged — fails because `client_store.entry(tx.client).or_default()` runs
before any validation. -/
theorem claim1_rejection_frame (e : Transaction) (s : EngineState)
    (h : (handle e s).1 ≠ none) :
    (∀ k, (handle e s).2.txs k = s.txs k) ∧
    (∀ c, (handle e s).2.clients c =
      if c = e.client then some ((s.clients e.client).getD Client.default)
      else s.clients c) := by
  rcases handle_cases e s with h0 | ⟨h1, h2⟩
  · exact absurd h0 h
  · exact ⟨fun k => by rw [h1], fun c => by rw [h2]; rfl⟩

/-- Witness for C1 (amended): a rejected dispute on empty stores leaves the
transaction store empty and inserts a default account for its client. -/
theorem claim1_rejection_frame_witness :
    (handle (Transaction.new .dispute 7 42) emptyState).1 ≠ none ∧
    (handle (Transaction.new .dispute 7 42) emptyState).2.txs 42 =
      emptyState.txs 42 ∧
    (handle (Transaction.new .dispute 7 42) emptyState).2.clients 7 =
      some Client.default :=
  ⟨by decide, (claim1_rejection_frame (Transaction.new .dispute 7 42) emptyState
      (by decide)).1 42,
    by
      have := (claim1_rejection_frame (Transaction.new .dispute 7 42) emptyState
        (by decide)).2 7
      simpa using this⟩

/-- Claim C1, counterexample to the original statement: the rejected dispute
event `(client 7, tx 42)` on empty stores returns a rejection, yet the
account store is not unchanged — a fresh default account for client 7
appears. -/
theorem claim1_counterexample :
    (handle (Transaction.new .dispute 7 42) emptyState).1 =
      some (.referencedTransactionNotFound 42) ∧
    emptyState.clients 7 = none ∧
    (handle (Transaction.new .dispute 7 42) emptyState).2.clients 7 =
      some Client.default := by
  decide

/-- Claim C5: once an account is locked, every event addressed to it is
rejected with the account-locked rejection, its stored entry (available,
held, locked) is unchanged by any event whatsoever, and its locked flag
stays `true`. -/
theorem claim5_lock_finality (e : Transaction) (s : EngineState) (c : Nat)
    (cl : Client) (h1 : s.clients c = some cl) (h2 : cl.locked = true) :
    (e.client = c → (handle e s).1 = some .clientLocked) ∧
    (handle e s).2.clients c = some cl ∧
    lockedOf (handle e s).2 c = true := by
  have hmain : (e.client = c → (handle e s).1 = some .clientLocked) ∧
      (handle e s).2.clients c = some cl := by
    constructor
    · intro he
      subst he
      simp [handle, h1, h2]
    · by_cases he : c = e.client
      · subst he
        simp [handle, h1, h2, setAt_self]
      · rw [handle_clients_other e s c he, h1]
  exact ⟨hmain.1, hmain.2, by simp [lockedOf, hmain.2, h2]⟩

/-- Witness for C5: after deposit–dispute–chargeback, client 1 is locked
with `available = 0, held = 0`; a further deposit is rejected as
account-locked and the entry survives unchanged. -/
theorem claim5_lock_finality_witness :
    (run [Transaction.new (.deposit 5) 1 1, Transaction.new .dispute 1 1,
        Transaction.new .chargeback 1 1] emptyState).clients 1 =
      some { available := 0, held := 0, locked := true } ∧
    (handle (Transaction.new (.deposit 3) 1 2)
        (run [Transaction.new (.deposit 5) 1 1, Transaction.new .dispute 1 1,
          Transaction.new .chargeback 1 1] emptyState)).1 =
      some .clientLocked ∧
    (handle (Transaction.new (.deposit 3) 1 2)
        (run [Transaction.new (.deposit 5) 1 1, Transaction.new .dispute 1 1,
          Transaction.new .chargeback 1 1] emptyState)).2.clients 1 =
      some { available := 0, held := 0, locked := true } := by
  refine ⟨by decide, ?_, ?_⟩
  · exact (claim5_lock_finality (Transaction.new (.deposit 3) 1 2) _ 1
      { available := 0, held := 0, locked := true } (by decide) (by decide)).1 rfl
  · exact (claim5_lock_finality (Transaction.new (.deposit 3) 1 2) _ 1
      { available := 0, held := 0, locked := true } (by decide) (by decide)).2.1

/-- Claim C9: every event makes its client's account exist (inserted as a
zero-balance unlocked default before any validation, hence present even
when the event is rejected), and account entries of all other client ids
are untouched. -/
theorem claim9_account_autocreate (e : Transaction) (s : EngineState) :
    ((handle e s).2.clients e.client).isSome = true ∧
    (s.clients e.client = none → (handle e s).1 ≠ none →
      (handle e s).2.clients e.client = some Client.default) ∧
    (∀ c, c ≠ e.client → (handle e s).2.clients c = s.clients c) := by
  refine ⟨handle_clients_self_isSome e s, ?_, fun c hc => handle_clients_other e s c hc⟩
  intro habs hrej
  rcases handle_cases e s with h0 | ⟨h1, h2⟩
  · exact absurd h0 hrej
  · rw [h2, setAt_self, habs]
    rfl

/-- Witness for C9: a rejected dispute for client 7 on empty stores still
creates client 7's account, and client 8's entry stays absent. -/
theorem claim9_account_autocreate_witness :
    ((handle (Transaction.new .dispute 7 42) emptyState).2.clients 7).isSome = true ∧
    (handle (Transaction.new .dispute 7 42) emptyState).2.clients 7 =
      some Client.default ∧
    (handle (Transaction.new .dispute 7 42) emptyState).2.clients 8 =
      emptyState.clients 8 := by
  refine ⟨(claim9_account_autocreate (Transaction.new .dispute 7 42) emptyState).1,
    (claim9_account_autocreate (Transaction.new .dispute 7 42) emptyState).2.1
      (by decide) (by decide),
    (claim9_account_autocreate (Transaction.new .dispute 7 42) emptyState).2.2 8
      (by decide)⟩

/-- Claim C10: a deposit with any amount — negative or zero included — is
accepted whenever the account is not locked and the transaction id is
fresh, and `available` changes by exactly that amount; the engine performs
no sign or range check. -/
theorem claim10_no_amount_check (c t : Nat) (a : Amount) (s : EngineState)
    (hl : lockedOf s c = false) (hf : s.txs t = none) :
    (handle (Transaction.new (.deposit a) c t) s).1 = none ∧
    availOf (handle (Transaction.new (.deposit a) c t) s).2 c =
      availOf s c + a := by
  have hl2 : ((s.clients c).getD Client.default).locked = false := hl
  constructor
  · simp [handle, Transaction.new, hl2, hf]
  · simp [handle, Transaction.new, hl2, hf, availOf, setAt]

/-- Witness for C10: a deposit of −5 for a fresh client and fresh id is
accepted and drives `available` to −5. -/
theorem claim10_no_amount_check_witness :
    lockedOf emptyState 1 = false ∧ emptyState.txs 1 = none ∧
    (handle (Transaction.new (.deposit (-5)) 1 1) emptyState).1 = none ∧
    availOf (handle (Transaction.new (.deposit (-5)) 1 1) emptyState).2 1 =
      availOf emptyState 1 + (-5) :=
  ⟨by decide, rfl,
    (claim10_no_amount_check 1 1 (-5) emptyState (by decide) rfl).1,
    (claim10_no_amount_check 1 1 (-5) emptyState (by decide) rfl).2⟩


/-- Claim C2: a stored transaction's status only ever moves along the table
`Started → Disputed`, `Disputed → Resolved`, `Disputed → ChargedBack`,
`Resolved → ChargedBack` (run-level: along its reflexive-transitive
closure), with kind, client and id never changing; an entry whose status is
`ChargedBack` is never changed by any event; and any dispute, resolve or
chargeback attempting a transition outside the table is rejected. -/
theorem claim2_status_transitions (evs : List Transaction) (e : Transaction)
    (s : EngineState) (k : Nat) (rt : Transaction) (h : s.txs k = some rt) :
    (∃ rt2, (run evs s).txs k = some rt2 ∧ rt2.kind = rt.kind ∧
      rt2.client = rt.client ∧ rt2.tx = rt.tx ∧
      statusReach rt.status rt2.status = true) ∧
    (∀ rt2, (handle e s).2.txs k = some rt2 →
      rt2.kind = rt.kind ∧ rt2.client = rt.client ∧ rt2.tx = rt.tx ∧
      statusStep rt.status rt2.status = true) ∧
    (rt.status = .chargeback → (handle e s).2.txs k = some rt) ∧
    (e.tx = k → badAttempt e.kind rt.status = true → (handle e s).1 ≠ none) := by
  refine ⟨run_statusReach evs s k rt h, ?_, ?_, ?_⟩
  · intro rt2 h2
    rcases handle_txs_cases e s k with hc | ⟨hk, hn, -, -⟩ | ⟨hk, rt3, st, hs, hm, he, -⟩
    · rw [hc, h] at h2
      injection h2 with hh
      subst hh
      exact ⟨rfl, rfl, rfl, by simp [statusStep]⟩
    · rw [h] at hn; cases hn
    · rw [h] at hs
      injection hs with hh
      subst hh
      rw [hm] at h2
      injection h2 with hh2
      subst hh2
      exact ⟨rfl, rfl, rfl, by simp [statusStep, he]⟩
  · intro hcb
    rcases handle_txs_cases e s k with hc | ⟨hk, hn, -, -⟩ | ⟨hk, rt3, st, hs, hm, he, -⟩
    · rw [hc, h]
    · rw [h] at hn; cases hn
    · rw [h] at hs
      injection hs with hh
      subst hh
      rw [hcb] at he
      cases st <;> simp [statusEdge] at he
  · intro hek hbad
    subst hek
    exact handle_bad_attempt e s rt h hbad

/-- Witness for C2: a charged-back deposit (client 1, tx 1) is terminal —
a further dispute of it is rejected. -/
theorem claim2_status_transitions_witness :
    (run [Transaction.new (.deposit 5) 1 1, Transaction.new .dispute 1 1,
        Transaction.new .chargeback 1 1] emptyState).txs 1 =
      some { kind := .deposit 5, client := 1, tx := 1, status := .chargeback } ∧
    badAttempt TransactionKind.dispute TxStatus.chargeback = true ∧
    (handle (Transaction.new .dispute 1 1)
        (run [Transaction.new (.deposit 5) 1 1, Transaction.new .dispute 1 1,
          Transaction.new .chargeback 1 1] emptyState)).1 ≠ none := by
  refine ⟨by decide, by decide, ?_⟩
  exact (claim2_status_transitions [] (Transaction.new .dispute 1 1)
      (run [Transaction.new (.deposit 5) 1 1, Transaction.new .dispute 1 1,
        Transaction.new .chargeback 1 1] emptyState) 1
      { kind := .deposit 5, client := 1, tx := 1, status := .chargeback }
      (by decide)).2.2.2 rfl (by decide)

/-- Claim C3: over a run of only deposits and withdrawals from empty stores,
each account's final available balance is the sum of its accepted deposit
amounts minus the sum of its accepted withdrawal amounts, and its held
balance is zero. -/
theorem claim3_balance_conservation (evs : List Transaction)
    (hk : ∀ e ∈ evs, e.kind.isMoney = true) (c : Nat) :
    availOf (runTrace evs emptyState).1 c =
      acceptedDepositSum c (runTrace evs emptyState).2 -
        acceptedWithdrawalSum c (runTrace evs emptyState).2 ∧
    heldOf (runTrace evs emptyState).1 c = 0 := by
  obtain ⟨h1, h2⟩ := runTrace_money evs emptyState hk (fun _ => rfl) (fun _ => rfl)
  refine ⟨?_, h1 c⟩
  have hc := h2 c
  simpa [availOf, emptyState, Client.default] using hc

/-- Witness for C3: a five-event deposit/withdrawal run (with one duplicate
and one insufficient-funds rejection) satisfies the conservation law for
client 1. -/
theorem claim3_balance_conservation_witness :
    (∀ e ∈ [Transaction.new (.deposit 10) 1 1, Transaction.new (.deposit 20) 2 2,
      Transaction.new (.deposit 10) 1 1, Transaction.new (.withdrawal 4) 1 3,
      Transaction.new (.withdrawal 100) 1 4], e.kind.isMoney = true) ∧
    (availOf (runTrace [Transaction.new (.deposit 10) 1 1,
        Transaction.new (.deposit 20) 2 2, Transaction.new (.deposit 10) 1 1,
        Transaction.new (.withdrawal 4) 1 3,
        Transaction.new (.withdrawal 100) 1 4] emptyState).1 1 =
      acceptedDepositSum 1 (runTrace [Transaction.new (.deposit 10) 1 1,
        Transaction.new (.deposit 20) 2 2, Transaction.new (.deposit 10) 1 1,
        Transaction.new (.withdrawal 4) 1 3,
        Transaction.new (.withdrawal 100) 1 4] emptyState).2 -
        acceptedWithdrawalSum 1 (runTrace [Transaction.new (.deposit 10) 1 1,
          Transaction.new (.deposit 20) 2 2, Transaction.new (.deposit 10) 1 1,
          Transaction.new (.withdrawal 4) 1 3,
          Transaction.new (.withdrawal 100) 1 4] emptyState).2 ∧
      heldOf (runTrace [Transaction.new (.deposit 10) 1 1,
        Transaction.new (.deposit 20) 2 2, Transaction.new (.deposit 10) 1 1,
        Transaction.new (.withdrawal 4) 1 3,
        Transaction.new (.withdrawal 100) 1 4] emptyState).1 1 = 0) :=
  ⟨by decide, claim3_balance_conservation _ (by decide) 1⟩


/-- Claim C4: an accepted dispute followed by an accepted resolve of the
same transaction restores the client's available and held balances exactly
to their pre-dispute values, and the derived total (available + held) is
unchanged after each of the two steps. -/
theorem claim4_dispute_resolve_inverse (d r : Transaction) (s : EngineState)
    (hd : d.kind = .dispute) (hr : r.kind = .resolve) (htx : r.tx = d.tx)
    (h1 : (handle d s).1 = none)
    (h2 : (handle r (handle d s).2).1 = none) :
    availOf (handle r (handle d s).2).2 d.client = availOf s d.client ∧
    heldOf (handle r (handle d s).2).2 d.client = heldOf s d.client ∧
    totalOf (handle d s).2 d.client = totalOf s d.client ∧
    totalOf (handle r (handle d s).2).2 d.client = totalOf s d.client := by
  obtain ⟨rt, a, hrt, hrc, hrs, hrk, hl, hcl1, htx1⟩ := dispute_ok_inv d s hd h1
  obtain ⟨rt2, a2, hrt2, hrc2, hrs2, hrk2, hl2, hcl2, htx2⟩ :=
    resolve_ok_inv r (handle d s).2 hr h2
  have hx : (handle d s).2.txs r.tx = some { rt with status := .disputed } := by
    rw [htx, htx1]
    exact setAt_self _ _ _
  have hrt2eq : rt2 = { rt with status := .disputed } := by
    have hy := hx.symm.trans hrt2
    injection hy with hy2
    exact hy2.symm
  have hcd : r.client = d.client := by
    rw [← hrc2, hrt2eq]
    exact hrc
  have ha2 : a2 = a := by
    rw [hrt2eq] at hrk2
    dsimp only at hrk2
    rcases hrk with hk1 | hk1 <;> rcases hrk2 with hk2 | hk2 <;> rw [hk1] at hk2
    · injection hk2 with hh
      exact hh.symm
    · cases hk2
    · cases hk2
    · injection hk2 with hh
      exact hh.symm
  rw [ha2] at hcl2
  rw [hcd] at hcl2
  have hv1 : availOf (handle d s).2 d.client = availOf s d.client - a := by
    simp [availOf, hcl1, setAt_self]
  have hh1 : heldOf (handle d s).2 d.client = heldOf s d.client + a := by
    simp [heldOf, hcl1, setAt_self]
  have hv2 : availOf (handle r (handle d s).2).2 d.client =
      availOf (handle d s).2 d.client + a := by
    simp [availOf, hcl2, setAt_self]
  have hh2 : heldOf (handle r (handle d s).2).2 d.client =
      heldOf (handle d s).2 d.client - a := by
    simp [heldOf, hcl2, setAt_self]
  refine ⟨?_, ?_, ?_, ?_⟩
  · rw [hv2, hv1]; ring
  · rw [hh2, hh1]; ring
  · simp only [totalOf]
    rw [hv1, hh1]; ring
  · simp only [totalOf]
    rw [hv2, hh2, hv1, hh1]; ring

/-- Witness for C4: deposit 5, dispute, resolve for client 1 restores
`available = 5, held = 0` and preserves the total throughout. -/
theorem claim4_dispute_resolve_inverse_witness :
    (handle (Transaction.new .dispute 1 1)
      (handle (Transaction.new (.deposit 5) 1 1) emptyState).2).1 = none ∧
    availOf (handle (Transaction.new .resolve 1 1)
        (handle (Transaction.new .dispute 1 1)
          (handle (Transaction.new (.deposit 5) 1 1) emptyState).2).2).2 1 =
      availOf (handle (Transaction.new (.deposit 5) 1 1) emptyState).2 1 ∧
    heldOf (handle (Transaction.new .resolve 1 1)
        (handle (Transaction.new .dispute 1 1)
          (handle (Transaction.new (.deposit 5) 1 1) emptyState).2).2).2 1 =
      heldOf (handle (Transaction.new (.deposit 5) 1 1) emptyState).2 1 := by
  refine ⟨by decide, ?_, ?_⟩
  · exact (claim4_dispute_resolve_inverse (Transaction.new .dispute 1 1)
      (Transaction.new .resolve 1 1)
      (handle (Transaction.new (.deposit 5) 1 1) emptyState).2
      rfl rfl rfl (by decide) (by decide)).1
  · exact (claim4_dispute_resolve_inverse (Transaction.new .dispute 1 1)
      (Transaction.new .resolve 1 1)
      (handle (Transaction.new (.deposit 5) 1 1) emptyState).2
      rfl rfl rfl (by decide) (by decide)).2.1

/-- Claim C7: an accepted dispute followed by an accepted chargeback of the
same transaction (of amount `a`) brings `held` back down by `a` to its
pre-dispute value, lowers the derived total by `a` relative to its
pre-dispute value, and locks the account. -/
theorem claim7_chargeback_effect (d cb : Transaction) (s : EngineState)
    (hd : d.kind = .dispute) (hcb : cb.kind = .chargeback) (htx : cb.tx = d.tx)
    (h1 : (handle d s).1 = none)
    (h2 : (handle cb (handle d s).2).1 = none) :
    ∃ rt a, s.txs d.tx = some rt ∧
      (rt.kind = .deposit a ∨ rt.kind = .withdrawal a) ∧
      heldOf (handle cb (handle d s).2).2 d.client =
        heldOf (handle d s).2 d.client - a ∧
      heldOf (handle cb (handle d s).2).2 d.client = heldOf s d.client ∧
      totalOf (handle cb (handle d s).2).2 d.client = totalOf s d.client - a ∧
      lockedOf (handle cb (handle d s).2).2 d.client = true := by
  obtain ⟨rt, a, hrt, hrc, hrs, hrk, hl, hcl1, htx1⟩ := dispute_ok_inv d s hd h1
  obtain ⟨rt2, a2, hrt2, hrc2, hrs2, hrk2, hl2, hcl2, htx2⟩ :=
    chargeback_ok_inv cb (handle d s).2 hcb h2
  have hx : (handle d s).2.txs cb.tx = some { rt with status := .disputed } := by
    rw [htx, htx1]
    exact setAt_self _ _ _
  have hrt2eq : rt2 = { rt with status := .disputed } := by
    have hy := hx.symm.trans hrt2
    injection hy with hy2
    exact hy2.symm
  have hcd : cb.client = d.client := by
    rw [← hrc2, hrt2eq]
    exact hrc
  have ha2 : a2 = a := by
    rw [hrt2eq] at hrk2
    dsimp only at hrk2
    rcases hrk with hk1 | hk1 <;> rcases hrk2 with hk2 | hk2 <;> rw [hk1] at hk2
    · injection hk2 with hh
      exact hh.symm
    · cases hk2
    · cases hk2
    · injection hk2 with hh
      exact hh.symm
  rw [ha2] at hcl2
  rw [hcd] at hcl2
  have hv1 : availOf (handle d s).2 d.client = availOf s d.client - a := by
    simp [availOf, hcl1, setAt_self]
  have hh1 : heldOf (handle d s).2 d.client = heldOf s d.client + a := by
    simp [heldOf, hcl1, setAt_self]
  have hv2 : availOf (handle cb (handle d s).2).2 d.client =
      availOf (handle d s).2 d.client := by
    simp [availOf, hcl2, setAt_self]
  have hh2 : heldOf (handle cb (handle d s).2).2 d.client =
      heldOf (handle d s).2 d.client - a := by
    simp [heldOf, hcl2, setAt_self]
  refine ⟨rt, a, hrt, hrk, hh2, ?_, ?_, ?_⟩
  · rw [hh2, hh1]; ring
  · simp only [totalOf]
    rw [hv2, hh2, hv1, hh1]; ring
  · simp [lockedOf, hcl2, setAt_self]

/-- Witness for C7: deposit 5, dispute, chargeback for client 1 ends with
`held = 0`, total lowered by 5, and the account locked. -/
theorem claim7_chargeback_effect_witness :
    (handle (Transaction.new .chargeback 1 1)
      (handle (Transaction.new .dispute 1 1)
        (handle (Transaction.new (.deposit 5) 1 1) emptyState).2).2).1 = none ∧
    ∃ rt a,
      (handle (Transaction.new (.deposit 5) 1 1) emptyState).2.txs 1 = some rt ∧
      (rt.kind = .deposit a ∨ rt.kind = .withdrawal a) ∧
      heldOf (handle (Transaction.new .chargeback 1 1)
          (handle (Transaction.new .dispute 1 1)
            (handle (Transaction.new (.deposit 5) 1 1) emptyState).2).2).2 1 =
        heldOf (handle (Transaction.new .dispute 1 1)
          (handle (Transaction.new (.deposit 5) 1 1) emptyState).2).2 1 - a ∧
      heldOf (handle (Transaction.new .chargeback 1 1)
          (handle (Transaction.new .dispute 1 1)
            (handle (Transaction.new (.deposit 5) 1 1) emptyState).2).2).2 1 =
        heldOf (handle (Transaction.new (.deposit 5) 1 1) emptyState).2 1 ∧
      totalOf (handle (Transaction.new .chargeback 1 1)
          (handle (Transaction.new .dispute 1 1)
            (handle (Transaction.new (.deposit 5) 1 1) emptyState).2).2).2 1 =
        totalOf (handle (Transaction.new (.deposit 5) 1 1) emptyState).2 1 - a ∧
      lockedOf (handle (Transaction.new .chargeback 1 1)
          (handle (Transaction.new .dispute 1 1)
            (handle (Transaction.new (.deposit 5) 1 1) emptyState).2).2).2 1 = true :=
  ⟨by decide,
    claim7_chargeback_effect (Transaction.new .dispute 1 1)
      (Transaction.new .chargeback 1 1)
      (handle (Transaction.new (.deposit 5) 1 1) emptyState).2
      rfl rfl rfl (by decide) (by decide)⟩


/-- Claim C6 (amended): a deposit or withdrawal whose transaction id is
already stored is always rejected — with the duplicate-transaction
rejection when the account is not locked (when it is locked, the lock check
fires first and returns the account-locked rejection) — and in every case
the transaction store is untouched (the original entry is never
overwritten) and every account's available and held balances are
unchanged. -/
theorem claim6_duplicate_rejected (e : Transaction) (s : EngineState) (a : Amount)
    (hk : e.kind = .deposit a ∨ e.kind = .withdrawal a)
    (hdup : (s.txs e.tx).isSome = true) :
    (handle e s).1 ≠ none ∧
    (lockedOf s e.client = false →
      (handle e s).1 = some (.duplicateTransaction e.tx)) ∧
    (∀ k, (handle e s).2.txs k = s.txs k) ∧
    (∀ c, availOf (handle e s).2 c = availOf s c ∧
      heldOf (handle e s).2 c = heldOf s c) := by
  have hrej : (handle e s).1 ≠ none ∧ (lockedOf s e.client = false →
      (handle e s).1 = some (.duplicateTransaction e.tx)) := by
    by_cases hl : ((s.clients e.client).getD Client.default).locked = true
    · constructor
      · simp [handle, hl]
      · intro hlf
        exact absurd
          (show ((s.clients e.client).getD Client.default).locked = false from hlf)
          (by simp [hl])
    · rw [Bool.not_eq_true] at hl
      rcases hk with hk | hk <;>
        exact ⟨by simp [handle, hk, hl, hdup], fun _ => by simp [handle, hk, hl, hdup]⟩
  obtain h0 | ⟨ht, hc⟩ := handle_cases e s
  · exact absurd h0 hrej.1
  · exact ⟨hrej.1, hrej.2, fun k => by rw [ht],
      fun c => ⟨by simp [availOf, hc, getD_setAt_or_default],
        by simp [heldOf, hc, getD_setAt_or_default]⟩⟩

/-- Witness for C6 (amended): a repeated deposit (client 1, tx 1) against an
unlocked account is rejected as a duplicate and changes nothing. -/
theorem claim6_duplicate_rejected_witness :
    ((handle (Transaction.new (.deposit 5) 1 1) emptyState).2.txs 1).isSome = true ∧
    (handle (Transaction.new (.deposit 7) 1 1)
        (handle (Transaction.new (.deposit 5) 1 1) emptyState).2).1 =
      some (.duplicateTransaction 1) ∧
    availOf (handle (Transaction.new (.deposit 7) 1 1)
        (handle (Transaction.new (.deposit 5) 1 1) emptyState).2).2 1 =
      availOf (handle (Transaction.new (.deposit 5) 1 1) emptyState).2 1 := by
  refine ⟨by decide, ?_, ?_⟩
  · exact (claim6_duplicate_rejected (Transaction.new (.deposit 7) 1 1)
      (handle (Transaction.new (.deposit 5) 1 1) emptyState).2 7
      (Or.inl rfl) (by decide)).2.1 (by decide)
  · exact ((claim6_duplicate_rejected (Transaction.new (.deposit 7) 1 1)
      (handle (Transaction.new (.deposit 5) 1 1) emptyState).2 7
      (Or.inl rfl) (by decide)).2.2.2 1).1

/-- Claim C6, counterexample to the original statement: after
deposit–dispute–chargeback on (client 1, tx 1) the account is locked; a
second deposit with the already-stored tx id 1 is rejected, but with the
account-locked rejection, not the duplicate-transaction one. -/
theorem claim6_counterexample :
    ((run [Transaction.new (.deposit 5) 1 1, Transaction.new .dispute 1 1,
        Transaction.new .chargeback 1 1] emptyState).txs 1).isSome = true ∧
    (handle (Transaction.new (.deposit 5) 1 1)
        (run [Transaction.new (.deposit 5) 1 1, Transaction.new .dispute 1 1,
          Transaction.new .chargeback 1 1] emptyState)).1 = some .clientLocked ∧
    (handle (Transaction.new (.deposit 5) 1 1)
        (run [Transaction.new (.deposit 5) 1 1, Transaction.new .dispute 1 1,
          Transaction.new .chargeback 1 1] emptyState)).1 ≠
      some (.duplicateTransaction 1) := by
  decide

/-- Claim C8: a chargeback of a transaction whose status is `Resolved` is
accepted: after deposit `a`, dispute, resolve (leaving the stored status
`Resolved`), the chargeback is accepted too, subtracting `a` from `held` a
second time, ending with `held = -a`, `available = a`, and the account
locked — no clamping, no extra rejection. -/
theorem claim8_chargeback_on_resolved (a : Amount) (c t : Nat) :
    (runTrace [Transaction.new (.deposit a) c t, Transaction.new .dispute c t,
        Transaction.new .resolve c t, Transaction.new .chargeback c t]
      emptyState).2.map Prod.snd = [none, none, none, none] ∧
    (run [Transaction.new (.deposit a) c t, Transaction.new .dispute c t,
        Transaction.new .resolve c t] emptyState).txs t =
      some { kind := .deposit a, client := c, tx := t, status := .resolved } ∧
    heldOf (run [Transaction.new (.deposit a) c t, Transaction.new .dispute c t,
        Transaction.new .resolve c t, Transaction.new .chargeback c t]
      emptyState) c = -a ∧
    availOf (run [Transaction.new (.deposit a) c t, Transaction.new .dispute c t,
        Transaction.new .resolve c t, Transaction.new .chargeback c t]
      emptyState) c = a ∧
    lockedOf (run [Transaction.new (.deposit a) c t, Transaction.new .dispute c t,
        Transaction.new .resolve c t, Transaction.new .chargeback c t]
      emptyState) c = true := by
  refine ⟨?_, ?_, ?_, ?_, ?_⟩ <;>
    simp [run, runTrace, handle, Transaction.new, emptyState, setAt,
      availOf, heldOf, lockedOf, Client.default]


/-- Witness for C8: with `a = 7` the deposit–dispute–resolve–chargeback
chain from empty stores is fully accepted and ends with `held = -7`,
`available = 7`, locked. -/
theorem claim8_chargeback_on_resolved_witness :
    (runTrace [Transaction.new (.deposit 7) 1 1, Transaction.new .dispute 1 1,
        Transaction.new .resolve 1 1, Transaction.new .chargeback 1 1]
      emptyState).2.map Prod.snd = [none, none, none, none] ∧
    heldOf (run [Transaction.new (.deposit 7) 1 1, Transaction.new .dispute 1 1,
        Transaction.new .resolve 1 1, Transaction.new .chargeback 1 1]
      emptyState) 1 = -7 ∧
    lockedOf (run [Transaction.new (.deposit 7) 1 1, Transaction.new .dispute 1 1,
        Transaction.new .resolve 1 1, Transaction.new .chargeback 1 1]
      emptyState) 1 = true :=
  ⟨(claim8_chargeback_on_resolved 7 1 1).1,
    (claim8_chargeback_on_resolved 7 1 1).2.2.1,
    (claim8_chargeback_on_resolved 7 1 1).2.2.2.2⟩

end SailorLedger
